import Mathlib

/-!
Verification of the streamgate source-patch scripts.

The Python scripts under scripts/ are embedded shallowly: document text is a
`String` (processed as `List Char`), a document's lines are obtained by
splitting on the newline character exactly as Python's `str.split('\n')`
does, and each regular-expression substitution is embedded as a
deterministic scanner that reproduces the Python `re` behaviour on the
pattern in question (the patterns used by the scripts are all effectively
deterministic; where greedy backtracking can occur it is resolved explicitly
in the embedding, as noted at each definition).
-/

/-- Python `str.split('\n')`: splits on every newline; `"".split('\n') = ['']`. -/
def splitNl : List Char → List (List Char)
  | [] => [[]]
  | c :: rest =>
    if c = '\n' then [] :: splitNl rest
    else
      match splitNl rest with
      | [] => [[c]]
      | l :: ls => (c :: l) :: ls

/-- Python `'\n'.join(lines)`. -/
def joinNl : List (List Char) → List Char
  | [] => []
  | [l] => l
  | l :: ls => l ++ '\n' :: joinNl ls

/-- Brace balance of one line: `line.count('{') - line.count('}')`. -/
def bal (l : List Char) : Int :=
  (l.count '\x7b' : Int) - (l.count '\x7d' : Int)

/-- Literal-prefix test (Python `str.startswith` on char lists). -/
def litPre : List Char → List Char → Bool
  | [], _ => true
  | _ :: _, [] => false
  | a :: as_, b :: bs => a == b && litPre as_ bs

/-- Python substring containment `pat in s`. -/
def occurs (pat : List Char) : List Char → Bool
  | [] => litPre pat []
  | c :: rest => litPre pat (c :: rest) || occurs pat rest

/-- Substring containment at `String` level. -/
def pyContains (s pat : String) : Bool := occurs pat.toList s.toList

/-!
Block stripper of `fix-all-handlers.py` (`remove_rate_limit_blocks`,
`remove_cache_blocks`).  The Python loop tests the opening-line predicate
first on every line, even while `skip` is set; only when the predicate fails
does the `if skip:` branch run.  A matching line therefore always (re)enters
skip mode with the depth reset to that line's own brace balance.
-/

/-- One pass of the block-stripping loop: state is the `skip` flag and the
running `brace_count`. -/
def stripScan (pred : List Char → Bool) :
    List (List Char) → Bool → Int → List (List Char)
  | [], _, _ => []
  | l :: ls, skip, bc =>
    if pred l then stripScan pred ls true (bal l)
    else if skip then
      let bc2 := bc + bal l
      if bc2 ≤ 0 then stripScan pred ls false bc2
      else stripScan pred ls true bc2
    else l :: stripScan pred ls false bc

/-- Entry point of the scan: `skip = False`, `brace_count = 0`. -/
def stripBlocks (pred : List Char → Bool) (lines : List (List Char)) :
    List (List Char) :=
  stripScan pred lines false 0

/-- Opening-line predicate of `remove_rate_limit_blocks`. -/
def ratePred (l : List Char) : Bool :=
  occurs "if !h.rateLimiter.Allow(".toList l ||
  occurs "if !p.rateLimiter.Allow(".toList l

/-- Opening-line predicate of `remove_cache_blocks`. -/
def cachePred (l : List Char) : Bool :=
  occurs "if cached, ok := h.cache.Get(".toList l

/-- `remove_rate_limit_blocks(content)` of fix-all-handlers.py. -/
def remove_rate_limit_blocks (content : String) : String :=
  (joinNl (stripBlocks ratePred (splitNl content.toList))).asString

/-- `remove_cache_blocks(content)` of fix-all-handlers.py. -/
def remove_cache_blocks (content : String) : String :=
  (joinNl (stripBlocks cachePred (splitNl content.toList))).asString

/-!
Call normalizer of `fix-zap-comprehensive.py`.

`FIELD_TYPES` is the module-level dict; `fieldFor` is the per-pair body of
`fix_logger_call` (lines choosing the zap constructor); `errMatch` embeds
`re.match(r'"error",\s*(\w+)', ...)` guarded by `startswith('"error"')`
(the guard is implied by the pattern's own literal prefix, and both paths
fall through to the generic pair match when the pattern fails, so the
combined test is equivalent); `kvMatch` embeds
`re.match(r'"([^"]+)",\s*([^,)]+)', ...)`.  Both patterns are determinate:
each greedy class excludes the character that must follow it, except that
`\s*` can yield back exactly one trailing space to a following `[^,)]+` /
`[^)]+` when the class would otherwise be empty; that single backtracking
case is spelled out in the definitions.
-/

/-- Python `\s` on ASCII text. -/
def isPySpace (c : Char) : Bool :=
  c == ' ' || c == '\t' || c == '\n' || c == '\r' || c == '\x0b' || c == '\x0c'

/-- Python `\w` on ASCII text. -/
def isPyWord (c : Char) : Bool := c.isAlphanum || c == '_'

/-- The characters skipped between pairs: Python `rest[pos] in ', \t\n'`. -/
def isSep (c : Char) : Bool := c == ',' || c == ' ' || c == '\t' || c == '\n'

/-- Python `str.strip()`. -/
def pyStrip (s : String) : String :=
  (((s.toList.dropWhile isPySpace).reverse.dropWhile isPySpace).reverse).asString

/-- The `FIELD_TYPES` dict of fix-zap-comprehensive.py, in source order. -/
def FIELD_TYPES : List (String × String) :=
  [("address", "String"), ("chain_id", "String"), ("contract", "String"),
   ("cid", "String"), ("filename", "String"), ("name", "String"),
   ("service_id", "String"), ("service_name", "String"), ("path", "String"),
   ("method", "String"), ("from", "String"), ("to", "String"),
   ("key", "String"), ("type", "String"), ("subject", "String"),
   ("event_type", "String"), ("event_id", "String"), ("tx_hash", "String"),
   ("function", "String"), ("mode", "String"), ("url", "String"),
   ("version", "String"), ("rpc_url", "String"), ("host", "String"),
   ("challenge_id", "String"), ("from_chain", "String"), ("alert_id", "String"),
   ("signal", "String"), ("owner", "String"), ("token_id", "String"),
   ("asset", "String"), ("amount", "String"), ("event", "String"),
   ("from_block", "String"), ("to_block", "String"), ("value", "String"),
   ("gas_limit", "String"),
   ("port", "Int"), ("count", "Int"), ("size", "Int"), ("nonce", "Int"),
   ("failures", "Int"),
   ("id", "Int64"), ("user_id", "Int64"), ("content_id", "Int64"),
   ("block_number", "Int64"),
   ("duration", "Duration"), ("elapsed", "Duration"),
   ("update_interval", "Duration"),
   ("success", "Bool"), ("is_owner", "Bool"), ("has_nft", "Bool"),
   ("is_contract", "Bool"),
   ("error", "Error"), ("message_length", "Int"), ("length", "Int"),
   ("expected", "String"), ("gas_price_wei", "String"), ("gas_price", "String"),
   ("gas", "String"), ("balance", "String")]

/-- `FIELD_TYPES.get(key, 'String')`. -/
def fieldGet (key : String) : String :=
  (List.lookup key FIELD_TYPES).getD "String"

/-- The constructor-selection chain of `fix_logger_call` for one parsed pair
(`value` already stripped). -/
def fieldFor (key value : String) : String :=
  let ft := fieldGet key
  if (value = "err" ∨ value = "error") ∧ key = "error" then
    "zap.Error(" ++ value ++ ")"
  else if ft = "String" ∧ ¬ value.startsWith "\"" then
    "zap.String(\"" ++ key ++ "\", " ++ value ++ ")"
  else if ft = "Int" then "zap.Int(\"" ++ key ++ "\", " ++ value ++ ")"
  else if ft = "Int64" then "zap.Int64(\"" ++ key ++ "\", " ++ value ++ ")"
  else if ft = "Duration" then "zap.Duration(\"" ++ key ++ "\", " ++ value ++ ")"
  else if ft = "Bool" then "zap.Bool(\"" ++ key ++ "\", " ++ value ++ ")"
  else "zap.String(\"" ++ key ++ "\", " ++ value ++ ")"

/-- `re.match(r'"error",\s*(\w+)', s)`: returns the captured variable and the
suffix after the match. -/
def errMatch (s : List Char) : Option (String × List Char) :=
  if litPre "\"error\",".toList s then
    let r1 := (s.drop 8).dropWhile isPySpace
    let w := r1.takeWhile isPyWord
    if w = [] then none else some (w.asString, r1.drop w.length)
  else none

/-- `re.match(r'"([^"]+)",\s*([^,)]+)', s)`: returns the raw key and value
groups and the suffix after the match. -/
def kvMatch (s : List Char) : Option (String × String × List Char) :=
  if s.head? = some '"' then
    let rest := s.tail
    let k := rest.takeWhile (fun c => c != '"')
    if k = [] then none else
    let r1 := rest.drop k.length
    if r1.head? = some '"' ∧ r1.tail.head? = some ',' then
      let r2 := r1.tail.tail
      let sp := r2.takeWhile isPySpace
      let r3 := r2.drop sp.length
      match r3.head? with
      | some c =>
        if c ≠ ',' ∧ c ≠ ')' then
          let v := r3.takeWhile (fun x => x != ',' && x != ')')
          some (k.asString, v.asString, r3.drop v.length)
        else if sp ≠ [] then some (k.asString, " ", r3)
        else none
      | none => if sp ≠ [] then some (k.asString, " ", r3) else none
    else none
  else none

/-- The key/value scanning loop of `fix_logger_call` (fix-zap-comprehensive.py):
skip separator characters, try the error fast path, then the generic pair
pattern; on success append the rendered field and continue after the match;
otherwise advance one character (`current_pos += 1`), dropping that character
from the rebuilt call.  The loop is written with explicit fuel so that it
reduces definitionally; every iteration consumes at least one character, so
fuel equal to the input length never runs out (`parseLoopF_stable`). -/
def parseLoopF : Nat → List Char → List String → List String
  | 0, _, acc => acc.reverse
  | fuel + 1, s, acc =>
    let s1 := s.dropWhile isSep
    if s1 = [] then acc.reverse
    else
      match errMatch s1 with
      | some (w, r) => parseLoopF fuel r (("zap.Error(" ++ w ++ ")") :: acc)
      | none =>
        match kvMatch s1 with
        | some (k, v, r) => parseLoopF fuel r (fieldFor k (pyStrip v) :: acc)
        | none => parseLoopF fuel s1.tail acc

/-- The scanning loop at its actual fuel. -/
def parseLoop (s : List Char) (acc : List String) : List String :=
  parseLoopF s.length s acc

/-- `fix_logger_call` of fix-zap-comprehensive.py, as a function of the three
regex groups it reads (`match.group(1)`, `match.group(2)`,
`match.group(3)`): parse `rest` into pairs and rebuild the call. -/
def fix_logger_call (logger_call message rest : String) : String :=
  let pairs := parseLoop rest.toList []
  if pairs = [] then logger_call ++ "(" ++ message ++ ")"
  else logger_call ++ "(" ++ message ++ ", " ++ String.intercalate ", " pairs ++ ")"

/-!
The document-level substitution of `fix_file` (fix-zap-comprehensive.py):

  re.sub(r'(logger\.(Error|Warn|Info|Debug))\(([^,]+),\s*("(?:[^"]|\\")*",\s*[^)]+)\)',
         fix_logger_call, content)

`reSub` is the generic left-to-right non-overlapping substitution scan of
`re.sub` (try the pattern at each position; on a match emit the replacement
and resume after the match, else copy one character).  It carries fuel equal
to the input length; every matcher used here consumes at least one character
per match, so the fuel never runs out.

`keyDFS` implements the group `(?:[^"]|\\")*` followed by `",\s*[^)]+\)`
with the regex engine's exact backtracking order (at each position: extend
the group by one non-quote character first, then — on failure — by an
escaped quote, and otherwise close at a quote); `afterKey` is the
deterministic continuation, including the case where `\s*` yields one
trailing space back to `[^)]+`.
-/

/-- Continuation `,\s*[^)]+\)` after the closing key quote; returns the
suffix after the final `)`. -/
def afterKey (cs : List Char) : Option (List Char) :=
  if cs.head? = some ',' then
    let r := cs.tail
    let sp := r.takeWhile isPySpace
    let r2 := r.drop sp.length
    match r2.head? with
    | some c =>
      if c ≠ ')' then
        let v := r2.takeWhile (fun x => x != ')')
        let r3 := r2.drop v.length
        if r3.head? = some ')' then some r3.tail else none
      else if sp ≠ [] then some r2.tail
      else none
    | none => none
  else none

/-- Backtracking scan of `(?:[^"]|\\")*"` followed by `afterKey`, entered just
after the opening quote of the key group. -/
def keyDFS : List Char → Option (List Char)
  | [] => none
  | c :: rest =>
    if c = '"' then afterKey rest
    else
      match keyDFS rest with
      | some r => some r
      | none =>
        if c = '\\' then
          match rest with
          | '"' :: r2 => keyDFS r2
          | _ => none
        else none

/-- The four method alternatives, in pattern order. -/
def zapMethods : List String := ["Error", "Warn", "Info", "Debug"]

/-- Try one method alternative followed by `(`. -/
def methodOf (cs : List Char) : Option (String × List Char) :=
  (zapMethods.filterMap fun m =>
    if litPre (m.toList ++ ['(']) cs then some (m, cs.drop (m.toList.length + 1))
    else none).head?

/-- Attempt the whole `fix_file` pattern at the head of `cs`; on success
return the replacement text produced by `fix_logger_call` (with the groups
exactly as the Python code reads them: group 1 `logger.<Method>`, group 2
the method name, group 3 the message text) and the suffix after the match. -/
def tryZapMatch (cs : List Char) : Option (List Char × List Char) :=
  if litPre "logger.".toList cs then
    match methodOf (cs.drop 7) with
    | none => none
    | some (m, r0) =>
      let g3 := r0.takeWhile (fun c => c != ',')
      if g3 = [] then none
      else
        let r1 := r0.drop g3.length
        if r1.head? = some ',' then
          let r2 := r1.tail
          let r3 := r2.drop (r2.takeWhile isPySpace).length
          if r3.head? = some '"' then
            match keyDFS r3.tail with
            | some after =>
              some ((fix_logger_call ("logger." ++ m) m g3.asString).toList, after)
            | none => none
          else none
        else none
  else none

/-- Fuelled `re.sub` scan: at each position try the matcher; on a match emit
its replacement and continue after it, otherwise copy one character. -/
def subF (m : List Char → Option (List Char × List Char)) :
    Nat → List Char → List Char
  | 0, cs => cs
  | _ + 1, [] => []
  | fuel + 1, c :: rest =>
    match m (c :: rest) with
    | some (rep, after) => rep ++ subF m fuel after
    | none => c :: subF m fuel rest

/-- `re.sub(pattern, repl, s)` for a matcher that consumes at least one
character per match. -/
def reSub (m : List Char → Option (List Char × List Char)) (cs : List Char) :
    List Char :=
  subF m cs.length cs

/-- The text transformation of `fix_file` (fix-zap-comprehensive.py). -/
def zapFixText (content : String) : String :=
  (reSub tryZapMatch content.toList).asString

/-!
Inline-rewriter rules of `fix_handler_file` (fix-all-handlers.py).  Each
`re.sub(pattern, '', content)` pattern is a sequence of simple tokens:
literals, `\s+`, a one-character class such as `[hp]`, a negated class
`[^X]+`, and an optional comma.  In every rule each greedy token is followed
by a literal whose first character the token cannot match, so maximal munch
is exact and no backtracking arises (except the optional comma, which is
tried greedily then without).
-/

inductive Tok where
  | lit : List Char → Tok
  | ws1 : Tok
  | cls : List Char → Tok
  | notc1 : List Char → Tok
  | optc : Char → Tok

/-- Match a token sequence at the head of `cs`; returns the suffix after the
match. -/
def matchToks : List Tok → List Char → Option (List Char)
  | [], cs => some cs
  | .lit l :: ts, cs =>
    if litPre l cs then matchToks ts (cs.drop l.length) else none
  | .ws1 :: ts, cs =>
    let sp := cs.takeWhile isPySpace
    if sp = [] then none else matchToks ts (cs.drop sp.length)
  | .cls set :: ts, cs =>
    match cs with
    | c :: rest => if set.contains c then matchToks ts rest else none
    | [] => none
  | .notc1 ex :: ts, cs =>
    let v := cs.takeWhile (fun c => !(ex.contains c))
    if v = [] then none else matchToks ts (cs.drop v.length)
  | .optc c :: ts, cs =>
    match cs with
    | c2 :: rest =>
      if c2 = c then
        match matchToks ts rest with
        | some r => some r
        | none => matchToks ts cs
      else matchToks ts cs
    | [] => matchToks ts cs

/-- An erase rule as a `re.sub(pattern, '', ...)` matcher. -/
def eraseMatcher (ts : List Tok) (cs : List Char) :
    Option (List Char × List Char) :=
  (matchToks ts cs).map (fun after => ([], after))

/-- The eighteen `re.sub` erase rules of `fix_handler_file`, in source
order. -/
def allHandlerRules : List (List Tok) :=
  [ [.ws1, .lit "\"streamgate/pkg/security\"\n".toList],
    [.ws1, .lit "\"streamgate/pkg/optimization\"\n".toList],
    [.ws1, .lit "\"time\"\n".toList],
    [.ws1, .lit "rateLimiter".toList, .ws1, .lit "*security.RateLimiter\n".toList],
    [.ws1, .lit "auditLogger".toList, .ws1, .lit "*security.AuditLogger\n".toList],
    [.ws1, .lit "cache".toList, .ws1, .lit "*optimization.LocalCache\n".toList],
    [.ws1, .lit "localCache".toList, .ws1, .lit "*optimization.LocalCache\n".toList],
    [.ws1, .lit "rateLimiter:".toList, .ws1, .lit "security.NewRateLimiter(".toList,
      .notc1 [')'], .lit ")".toList, .optc ',', .lit "\n".toList],
    [.ws1, .lit "auditLogger:".toList, .ws1, .lit "security.NewAuditLogger(".toList,
      .notc1 [')'], .lit ")".toList, .optc ',', .lit "\n".toList],
    [.ws1, .lit "cache:".toList, .ws1, .lit "optimization.NewLocalCache(".toList,
      .notc1 [')'], .lit ")".toList, .optc ',', .lit "\n".toList],
    [.ws1, .lit "localCache:".toList, .ws1, .lit "optimization.NewLocalCache(".toList,
      .notc1 [')'], .lit ")".toList, .optc ',', .lit "\n".toList],
    [.ws1, .lit "startTime := time.Now()\n".toList],
    [.ws1, .lit "clientIP := r.RemoteAddr\n".toList],
    [.ws1, .cls ['h', 'p'], .lit ".auditLogger.LogEvent(".toList,
      .notc1 ['\n'], .lit "\n".toList],
    [.ws1, .cls ['h', 'p'], .lit ".metricsCollector.RecordTimer(".toList,
      .notc1 [','], .lit ", time.Since(startTime)".toList,
      .notc1 ['\n'], .lit "\n".toList],
    [.ws1, .cls ['h', 'p'], .lit ".cache.Stop()\n".toList],
    [.ws1, .cls ['h', 'p'], .lit ".cache.Set(".toList,
      .notc1 ['\n'], .lit "\n".toList],
    [.ws1, .lit "if p.cache != nil \x7b".toList, .ws1,
      .lit "p.cache.Stop()".toList, .ws1, .lit "\x7d\n".toList] ]

/-- The text transformation of `fix_handler_file` (fix-all-handlers.py): the
erase rules in order, then the two block-strip passes. -/
def fix_all_transform (content : String) : String :=
  let after :=
    (allHandlerRules.foldl (fun cs ts => reSub (eraseMatcher ts) cs)
      content.toList).asString
  remove_cache_blocks (remove_rate_limit_blocks after)

/-- Result of processing one file: the content left on disk and whether the
script rewrote the file. -/
structure FileResult where
  result : String
  wrote : Bool
  deriving DecidableEq, Repr

/-- `fix_handler_file` (fix-all-handlers.py): write back only when the
transformed text differs from the loaded text. -/
def fix_handler_file (orig : String) : FileResult :=
  let c := fix_all_transform orig
  if c ≠ orig then ⟨c, true⟩ else ⟨orig, false⟩

/-!
`fix_cmd_file` (fix-cmd-logger.py): the conditional zap-import insertion
followed by five `re.sub` rewrites, then an unconditional write.
-/

/-- A fully literal `re.sub` rule as a matcher. -/
def litSubMatch (pat rep : String) (cs : List Char) :
    Option (List Char × List Char) :=
  if litPre pat.toList cs then some (rep.toList, cs.drop pat.toList.length)
  else none

/-- `re.sub(r'(import \(\n)', r'\1\t"go.uber.org/zap"\n', content)` guarded by
`'"go.uber.org/zap"' not in content`. -/
def cmdInsertImport (content : String) : String :=
  if pyContains content "\"go.uber.org/zap\"" then content
  else
    (reSub (litSubMatch "import (\n" "import (\n\t\"go.uber.org/zap\"\n")
      content.toList).asString

/-- `re.sub(r'log\.Fatal\("([^"]+)", "error", err\)', ...)`: the group is
quote-free and followed by a literal starting with a quote, so maximal munch
is exact. -/
def cmdFatalMatch (cs : List Char) : Option (List Char × List Char) :=
  if litPre "log.Fatal(\"".toList cs then
    let r := cs.drop 11
    let g := r.takeWhile (fun c => c != '"')
    if g = [] then none
    else
      let r2 := r.drop g.length
      if litPre "\", \"error\", err)".toList r2 then
        some ("log.Fatal(\"".toList ++ g ++ "\", zap.Error(err))".toList,
          r2.drop 16)
      else none
  else none

/-- Greedy backtracking for a quote-free group followed by a literal that
begins with a space: largest split first, exactly as the regex engine gives
back characters from `[^"]+`. -/
def backJ (run rest lit : List Char) : Nat → Option Nat
  | 0 => none
  | j + 1 =>
    if litPre lit (run.drop (j + 1) ++ rest) then some (j + 1)
    else backJ run rest lit j

/-- `re.sub(r'log\.Info\("([^"]+) started successfully", "port",
cfg\.Server\.Port\)', ...)`. -/
def cmdStartedMatch (cs : List Char) : Option (List Char × List Char) :=
  if litPre "log.Info(\"".toList cs then
    let r := cs.drop 10
    let run := r.takeWhile (fun c => c != '"')
    let rest := r.drop run.length
    let lit2 := " started successfully\", \"port\", cfg.Server.Port)".toList
    match backJ run rest lit2 run.length with
    | some j =>
      some ("log.Info(\"".toList ++ run.take j ++
        " started successfully\", zap.Int(\"port\", cfg.Server.Port))".toList,
        (run.drop j ++ rest).drop lit2.length)
    | none => none
  else none

/-- The five call rewrites of `fix_cmd_file`, applied in source order after
the import insertion. -/
def cmdTransform (content : String) : String :=
  let c1 := cmdInsertImport content
  let c2 := (reSub cmdFatalMatch c1.toList).asString
  let c3 := (reSub (litSubMatch
    "log.Info(\"Configuration loaded\", \"mode\", cfg.Mode, \"service\", cfg.ServiceName, \"port\", cfg.Server.Port)"
    "log.Info(\"Configuration loaded\",\n\t\tzap.String(\"mode\", cfg.Mode),\n\t\tzap.String(\"service\", cfg.ServiceName),\n\t\tzap.Int(\"port\", cfg.Server.Port))")
    c2.toList).asString
  let c4 := (reSub cmdStartedMatch c3.toList).asString
  let c5 := (reSub (litSubMatch
    "log.Info(\"Received shutdown signal\", \"signal\", sig)"
    "log.Info(\"Received shutdown signal\", zap.String(\"signal\", sig.String()))")
    c4.toList).asString
  (reSub (litSubMatch
    "log.Error(\"Error during shutdown\", \"error\", err)"
    "log.Error(\"Error during shutdown\", zap.Error(err))")
    c5.toList).asString

/-- `fix_cmd_file` (fix-cmd-logger.py): the file is written back
unconditionally — there is no comparison with the loaded text. -/
def fix_cmd_file (orig : String) : FileResult :=
  ⟨cmdTransform orig, true⟩

/-!
Driver loops.  The file system is a map from path to file state; `absent`
raises `FileNotFoundError` on `open`, `unreadable` raises an `IOError`.

* fix-all-handlers.py `__main__`: each call to `fix_handler_file` is inside
  `try/except Exception`; on any exception the driver prints the error and
  calls `sys.exit(1)` — no later worklist entry is processed.
* fix-cmd-logger.py `main`: a path failing `Path(filepath).exists()` is
  reported `Not found` and skipped; an existing but unreadable file raises
  an uncaught exception, terminating the run.
* fix-zap-comprehensive.py `main` / `fix_file`: `fix_file` catches every
  exception, prints it to stderr and returns `False`; the driver keeps
  going and the process ends normally (exit status 0).
-/

inductive FileState where
  | absent : FileState
  | unreadable : FileState
  | content : String → FileState
  deriving DecidableEq, Repr

inductive Ev where
  | fixedFile : String → Ev
  | noChange : String → Ev
  | notFound : String → Ev
  | errorExit : String → Ev
  | crash : String → Ev
  | procError : String → Ev
  deriving DecidableEq, Repr

/-- Worklist loop of fix-all-handlers.py: per-file events and the process
exit status. -/
def allHandlersRun (fs : String → FileState) : List String → List Ev × Nat
  | [] => ([], 0)
  | p :: ps =>
    match fs p with
    | .content c =>
      let r := fix_handler_file c
      let fs2 := fun q => if q = p then .content r.result else fs q
      let rec2 := allHandlersRun (if r.wrote then fs2 else fs) ps
      ((if r.wrote then Ev.fixedFile p else Ev.noChange p) :: rec2.1, rec2.2)
    | _ => ([Ev.errorExit p], 1)

/-- Worklist loop of fix-cmd-logger.py. -/
def cmdRun (fs : String → FileState) : List String → List Ev × Nat
  | [] => ([], 0)
  | p :: ps =>
    match fs p with
    | .absent =>
      let rec2 := cmdRun fs ps
      (Ev.notFound p :: rec2.1, rec2.2)
    | .unreadable => ([Ev.crash p], 1)
    | .content c =>
      let r := fix_cmd_file c
      let fs2 := fun q => if q = p then .content r.result else fs q
      let rec2 := cmdRun fs2 ps
      (Ev.fixedFile p :: rec2.1, rec2.2)

/-- File loop of fix-zap-comprehensive.py `main`: `fix_file` never raises, so
the run always completes with exit status 0. -/
def zapRun (fs : String → FileState) : List String → List Ev × Nat
  | [] => ([], 0)
  | p :: ps =>
    match fs p with
    | .content c =>
      let t := zapFixText c
      if t ≠ c then
        let fs2 := fun q => if q = p then .content t else fs q
        let rec2 := zapRun fs2 ps
        (Ev.fixedFile p :: rec2.1, rec2.2)
      else
        let rec2 := zapRun fs ps
        (Ev.noChange p :: rec2.1, rec2.2)
    | _ =>
      let rec2 := zapRun fs ps
      (Ev.procError p :: rec2.1, rec2.2)

/-!
Properties of the block stripper.
-/

/-- Depth scan of a candidate block body: from depth `d`, the running depth
reaches `≤ 0` for the first time exactly at the last line of the list. -/
def consumes : Int → List (List Char) → Bool
  | _, [] => false
  | d, [x] => decide (d + bal x ≤ 0)
  | d, x :: y :: xs =>
    if d + bal x ≤ 0 then false else consumes (d + bal x) (y :: xs)

/-!
Idempotence of the pipeline, and the conditional write.
-/

/-!
Field-type selection.
-/

/-!
Supporting lemmas for symbolic walks through the pair-scanning loop.
-/

/-!
Driver error handling.
-/

/-- A worklist file system whose first entry is missing. -/
def exFS1 : String → FileState :=
  fun q => if q = "a" then FileState.absent else FileState.content ""

/-- A worklist file system whose first entry exists but cannot be read. -/
def exFS2 : String → FileState :=
  fun q => if q = "a" then FileState.unreadable else FileState.content ""

theorem litPre_length {p s : List Char} (h : litPre p s = true) :
    p.length ≤ s.length := by
  induction p generalizing s with
  | nil => simp
  | cons a as ih =>
    cases s with
    | nil => simp [litPre] at h
    | cons b bs =>
      simp only [litPre, Bool.and_eq_true] at h
      have := ih h.2
      simpa using Nat.succ_le_succ this

theorem errMatch_shrinks {s : List Char} {w : String} {r : List Char}
    (h : errMatch s = some (w, r)) : r.length < s.length := by
  unfold errMatch at h
  split at h
  · rename_i hp
    set r1 := (s.drop 8).dropWhile isPySpace with hr1
    simp only [] at h
    split at h
    · exact absurd h (by simp)
    · rename_i hw
      have hlen8 : 8 ≤ s.length := by
        have := litPre_length hp
        simpa using this
      have h1 : r1.length ≤ s.length - 8 := by
        have hsub : r1.Sublist (s.drop 8) := List.dropWhile_sublist _
        have := hsub.length_le
        simpa using this
      have h2 : r = r1.drop (r1.takeWhile isPyWord).length := by
        have := congrArg (fun o => Option.map Prod.snd o) h
        simpa using this.symm
      have hw1 : 1 ≤ (r1.takeWhile isPyWord).length := by
        rcases hne : r1.takeWhile isPyWord with _ | ⟨a, l⟩
        · exact absurd hne hw
        · simp
      have h3 : r.length ≤ r1.length - 1 := by
        rw [h2]
        simp only [List.length_drop]
        omega
      omega
  · exact absurd h (by simp)

theorem kvMatch_shrinks {s : List Char} {k v : String} {r : List Char}
    (h : kvMatch s = some (k, v, r)) : r.length < s.length := by
  unfold kvMatch at h
  split at h
  · rename_i hq
    have hs : 1 ≤ s.length := by
      cases s with
      | nil => simp at hq
      | cons a l => simp
    set rest := s.tail with hrest
    have hrl : rest.length = s.length - 1 := by simp [hrest]
    set kk := rest.takeWhile (fun c => c != '"') with hkk
    simp only [] at h
    split at h
    · exact absurd h (by simp)
    · rename_i hkne
      have hk1 : 1 ≤ kk.length := by
        rcases hne : kk with _ | ⟨a, l⟩
        · exact absurd hne hkne
        · simp
      have hkle : kk.length ≤ rest.length := by
        have := (List.takeWhile_sublist (l := rest) (p := fun c => c != '"')).length_le
        simpa [hkk] using this
      set r1 := rest.drop kk.length with hr1
      have hr1l : r1.length = rest.length - kk.length := by simp [hr1]
      split at h
      · rename_i hcm
        have hr1ge : 2 ≤ r1.length := by
          rcases hr : r1 with _ | ⟨a, l⟩
          · rw [hr] at hcm; simp at hcm
          · rcases hl : l with _ | ⟨b, l2⟩
            · rw [hr, hl] at hcm; simp at hcm
            · simp [hr, hl]
        set r2 := r1.tail.tail with hr2
        have hr2l : r2.length = r1.length - 2 := by
          rw [hr2]; simp only [List.length_tail]; omega
        set sp := r2.takeWhile isPySpace with hsp
        have hsple : sp.length ≤ r2.length := by
          have := (List.takeWhile_sublist (l := r2) (p := isPySpace)).length_le
          simpa [hsp] using this
        set r3 := r2.drop sp.length with hr3
        have hr3l : r3.length = r2.length - sp.length := by simp [hr3]
        split at h
        · rename_i c hc
          split at h
          · set vv := r3.takeWhile (fun x => x != ',' && x != ')') with hvv
            have hr4 : r = r3.drop vv.length := by
              have := congrArg (fun o => Option.map (fun p => p.2.2) o) h
              simpa using this.symm
            have hrlen : r.length ≤ r3.length := by
              rw [hr4]; simp
            omega
          · split at h
            · have hr4 : r = r3 := by
                have := congrArg (fun o => Option.map (fun p => p.2.2) o) h
                simpa using this.symm
              rename_i hspne
              have hsp1 : 1 ≤ sp.length := by
                rcases hne : sp with _ | ⟨a, l⟩
                · exact absurd hne hspne
                · simp
              have hrlen : r.length = r3.length := by rw [hr4]
              omega
            · exact absurd h (by simp)
        · split at h
          · have hr4 : r = r3 := by
              have := congrArg (fun o => Option.map (fun p => p.2.2) o) h
              simpa using this.symm
            rename_i hr3e _
            have hr30 : r3.length = 0 := by
              rcases hn : r3 with _ | ⟨a, l⟩
              · simp
              · rw [hn] at hr3e; simp at hr3e
            have hrlen : r.length = r3.length := by rw [hr4]
            omega
          · exact absurd h (by simp)
      · exact absurd h (by simp)
  · exact absurd h (by simp)

theorem dropWhile_length_le (p : Char → Bool) (s : List Char) :
    (s.dropWhile p).length ≤ s.length := by
  have := (List.dropWhile_sublist (l := s) (p := p)).length_le
  simpa using this

/-- Any fuel at least the input length gives the same result. -/
theorem parseLoopF_stable :
    ∀ f1 f2 s acc, s.length ≤ f1 → s.length ≤ f2 →
      parseLoopF f1 s acc = parseLoopF f2 s acc := by
  intro f1
  induction f1 with
  | zero =>
    intro f2 s acc h1 h2
    have hs : s = [] := by
      cases s with
      | nil => rfl
      | cons a l => simp at h1
    subst hs
    cases f2 with
    | zero => rfl
    | succ m => simp [parseLoopF]
  | succ n ih =>
    intro f2 s acc h1 h2
    cases f2 with
    | zero =>
      have hs : s = [] := by
        cases s with
        | nil => rfl
        | cons a l => simp at h2
      subst hs
      simp [parseLoopF]
    | succ m =>
      simp only [parseLoopF]
      have hdw : (s.dropWhile isSep).length ≤ s.length := dropWhile_length_le _ _
      by_cases hn : s.dropWhile isSep = []
      · simp [hn]
      · simp only [hn, if_neg, ite_false]
        rcases he : errMatch (s.dropWhile isSep) with _ | ⟨w, r⟩
        · rcases hk : kvMatch (s.dropWhile isSep) with _ | ⟨k, v, r⟩
          · have h3 : 1 ≤ (s.dropWhile isSep).length := by
              rcases hc : s.dropWhile isSep with _ | ⟨a, l⟩
              · exact absurd hc hn
              · simp
            have h4 : (s.dropWhile isSep).tail.length ≤ n ∧
                (s.dropWhile isSep).tail.length ≤ m := by
              have : (s.dropWhile isSep).tail.length =
                  (s.dropWhile isSep).length - 1 := by simp
              omega
            exact ih m _ acc h4.1 h4.2
          · have hr := kvMatch_shrinks hk
            exact ih m _ _ (by omega) (by omega)
        · have hr := errMatch_shrinks he
          exact ih m _ _ (by omega) (by omega)

/-- One unfolding of the loop, independent of the fuel bookkeeping. -/
theorem parseLoop_step (s : List Char) (acc : List String) :
    parseLoop s acc =
      if s.dropWhile isSep = [] then acc.reverse
      else
        match errMatch (s.dropWhile isSep) with
        | some (w, r) => parseLoop r (("zap.Error(" ++ w ++ ")") :: acc)
        | none =>
          match kvMatch (s.dropWhile isSep) with
          | some (k, v, r) => parseLoop r (fieldFor k (pyStrip v) :: acc)
          | none => parseLoop (s.dropWhile isSep).tail acc := by
  show parseLoopF s.length s acc = _
  cases hs : s with
  | nil => simp [parseLoopF]
  | cons a l =>
    rw [← hs]
    have hlen : s.length = (s.length - 1) + 1 := by
      rw [hs]; simp
    rw [hlen]
    simp only [parseLoopF]
    have hdw : (s.dropWhile isSep).length ≤ s.length := dropWhile_length_le _ _
    by_cases hn : s.dropWhile isSep = []
    · simp [hn]
    · simp only [hn, ite_false]
      have h3 : 1 ≤ (s.dropWhile isSep).length := by
        rcases hc : s.dropWhile isSep with _ | ⟨b, l2⟩
        · exact absurd hc hn
        · simp
      rcases he : errMatch (s.dropWhile isSep) with _ | ⟨w, r⟩
      · rcases hk : kvMatch (s.dropWhile isSep) with _ | ⟨k, v, r⟩
        · apply parseLoopF_stable
          · have : (s.dropWhile isSep).tail.length =
                (s.dropWhile isSep).length - 1 := by simp
            omega
          · rfl
        · have hr := kvMatch_shrinks hk
          exact parseLoopF_stable _ _ _ _ (by omega) (by rfl)
      · have hr := errMatch_shrinks he
        exact parseLoopF_stable _ _ _ _ (by omega) (by rfl)

/-- While not in skip mode the carried `brace_count` is irrelevant: it is
reset on the next matching line before being read. -/
theorem stripScan_false_bc (pred : List Char → Bool) :
    ∀ ls b1 b2, stripScan pred ls false b1 = stripScan pred ls false b2 := by
  intro ls
  induction ls with
  | nil => intro b1 b2; rfl
  | cons l ls ih =>
    intro b1 b2
    simp only [stripScan]
    by_cases h : pred l
    · simp [h]
    · simp only [h, ite_false, Bool.false_eq_true, if_false]
      rw [ih b1 b2]

/-- In skip mode, a predicate-free body whose depth scan closes at its last
line is consumed exactly, after which scanning of the suffix restarts in
non-skip mode. -/
theorem stripScan_skip_consumes (pred : List Char → Bool) :
    ∀ body d suf, (∀ x ∈ body, pred x = false) →
      consumes d body = true →
      stripScan pred (body ++ suf) true d = stripBlocks pred suf := by
  intro body
  induction body with
  | nil => intro d suf _ hc; simp [consumes] at hc
  | cons x xs ih =>
    intro d suf hb hc
    have hx : pred x = false := hb x (by simp)
    cases xs with
    | nil =>
      have hle : d + bal x ≤ 0 := by
        simpa [consumes] using hc
      simp only [List.cons_append, List.nil_append, stripScan, hx,
        Bool.false_eq_true, if_false, hle, if_true]
      exact stripScan_false_bc pred suf _ 0
    | cons y ys =>
      have hgt : ¬ d + bal x ≤ 0 := by
        by_contra hle
        simp [consumes, hle] at hc
      have hc2 : consumes (d + bal x) (y :: ys) = true := by
        simpa [consumes, hgt] using hc
      simp only [List.cons_append, stripScan, hx, Bool.false_eq_true,
        if_false, hgt, if_true]
      exact ih (d + bal x) suf (fun z hz => hb z (by simp [hz])) hc2

/-- C1 (amended): the block stripper removes exactly the lines from a matched
opening line through the line at which the running brace depth first drops to
zero or below, and no others, provided no line strictly inside that region
itself satisfies the opening predicate.  The proviso is forced by the code:
the predicate is tested before the skip flag on every line, so an inner
matching line resets the depth counter to its own balance instead of being
absorbed by the depth count. -/
theorem stripBlocks_exact_removal (pred : List Char → Bool)
    (pre : List (List Char)) (l : List Char) (body suf : List (List Char))
    (hpre : ∀ x ∈ pre, pred x = false)
    (hl : pred l = true)
    (hbody : ∀ x ∈ body, pred x = false)
    (hcons : consumes (bal l) body = true) :
    stripBlocks pred (pre ++ l :: body ++ suf) = pre ++ stripBlocks pred suf := by
  induction pre with
  | nil =>
    simp only [List.nil_append]
    show stripScan pred (l :: (body ++ suf)) false 0 = stripBlocks pred suf
    simp only [stripScan, hl, if_true]
    exact stripScan_skip_consumes pred body (bal l) suf hbody hcons
  | cons p pre2 ih =>
    have hp : pred p = false := hpre p (by simp)
    have hpre2 : ∀ x ∈ pre2, pred x = false := fun x hx => hpre x (by simp [hx])
    simp only [List.cons_append]
    show stripScan pred (p :: (pre2 ++ l :: body ++ suf)) false 0 = _
    simp only [stripScan, hp, Bool.false_eq_true, if_false]
    have := ih hpre2
    rw [show stripScan pred (pre2 ++ l :: body ++ suf) false 0
        = stripBlocks pred (pre2 ++ l :: body ++ suf) from rfl, this]

/-- Witness for C1: a rate-limiter block with a plain nested block inside is
removed exactly, surrounding lines preserved. -/
theorem stripBlocks_exact_removal_witness :
    stripBlocks ratePred
      ["before".toList,
       "if !h.rateLimiter.Allow(ip) \x7b".toList,
       "  if ok \x7b".toList,
       "    inner".toList,
       "  \x7d".toList,
       "\x7d".toList,
       "after".toList] = ["before".toList, "after".toList] := by
  have h := stripBlocks_exact_removal ratePred
    ["before".toList]
    "if !h.rateLimiter.Allow(ip) \x7b".toList
    ["  if ok \x7b".toList, "    inner".toList, "  \x7d".toList, "\x7d".toList]
    ["after".toList]
    (by decide) (by decide) (by decide) (by decide)
  simpa using h

/-- C1 (counterexample): an inner opening line of the same kind resets the
scan, so the outer block's closing line `}` survives; the claimed exact
removal of the outer block (leaving only `tail`) does not happen. -/
theorem stripBlocks_nested_reset_counterexample :
    remove_rate_limit_blocks
        "if !h.rateLimiter.Allow(a) \x7b\nif !h.rateLimiter.Allow(b) \x7b\n\x7d\n\x7d\ntail"
      = "\x7d\ntail" ∧
    remove_rate_limit_blocks
        "if !h.rateLimiter.Allow(a) \x7b\nif !h.rateLimiter.Allow(b) \x7b\n\x7d\n\x7d\ntail"
      ≠ "tail" := by
  constructor
  · decide
  · decide

/-- C4 (amended): a matched opening line whose own brace balance is zero or
negative does not terminate the scan on that line; the scanner still enters
skip mode, so the following line is also discarded (and, when that line's own
balance is `≤ 0`, scanning resumes in non-erasing mode only after it). -/
theorem stripBlocks_selfclosing_eats_next (pred : List Char → Bool)
    (l m : List Char) (rest : List (List Char))
    (hl : pred l = true) (hbl : bal l ≤ 0)
    (hm : pred m = false) (hbm : bal m ≤ 0) :
    stripBlocks pred (l :: m :: rest) = stripBlocks pred rest := by
  show stripScan pred (l :: m :: rest) false 0 = stripBlocks pred rest
  simp only [stripScan, hl, if_true, hm, Bool.false_eq_true, if_false]
  have hsum : bal l + bal m ≤ 0 := by omega
  simp only [hsum, if_true]
  exact stripScan_false_bc pred rest _ 0

/-- Witness for C4: a self-closing rate-limiter line plus the line after it
are both dropped. -/
theorem stripBlocks_selfclosing_eats_next_witness :
    stripBlocks ratePred
      ["if !h.rateLimiter.Allow(x) \x7b return \x7d".toList,
       "keep".toList, "rest".toList] = ["rest".toList] := by
  have h := stripBlocks_selfclosing_eats_next ratePred
    "if !h.rateLimiter.Allow(x) \x7b return \x7d".toList
    "keep".toList ["rest".toList]
    (by decide) (by decide) (by decide) (by decide)
  simpa using h

/-- C4 (counterexample): for a self-closing opening line the very next line
(`keep`) is not emitted; the stripper drops it as well, contradicting the
claim that only the single matched line is removed. -/
theorem stripBlocks_selfclosing_counterexample :
    remove_rate_limit_blocks
        "if !h.rateLimiter.Allow(x) \x7b return \x7d\nkeep\nrest" = "rest" ∧
    remove_rate_limit_blocks
        "if !h.rateLimiter.Allow(x) \x7b return \x7d\nkeep\nrest" ≠ "keep\nrest" := by
  constructor
  · decide
  · decide

/-- C2 (counterexample): the zap rewriting pass of fix-zap-comprehensive.py
is not idempotent.  On `logger.Error(m, "a", b), "x", y)` the first pass
rewrites the matched span to `logger.Error(Error)` (the handler reads the
method-name group as the message and the message group as the argument
list), leaving `logger.Error(Error), "x", y)`; that text matches the pattern
again, so a second pass changes the document again. -/
theorem zapFixText_not_idempotent :
    zapFixText (zapFixText "logger.Error(m, \"a\", b), \"x\", y)")
      ≠ zapFixText "logger.Error(m, \"a\", b), \"x\", y)" := by
  decide

/-- C2 (amended): applying the pass twice can differ from applying it once;
on the document above the first pass yields `logger.Error(Error), "x", y)`,
the second pass contracts it to `logger.Error(Error)`, and only from the
third pass on is the text stable. -/
theorem zapFixText_second_pass_changes :
    zapFixText "logger.Error(m, \"a\", b), \"x\", y)"
        = "logger.Error(Error), \"x\", y)" ∧
    zapFixText "logger.Error(Error), \"x\", y)" = "logger.Error(Error)" ∧
    zapFixText "logger.Error(Error)" = "logger.Error(Error)" := by
  refine ⟨by decide, by decide, by decide⟩

/-- C3 (amended, for the handler driver): fix-all-handlers.py writes a file
back exactly when the transformed text differs from the loaded text — the
resulting on-disk content differs from the original precisely when the
driver reports a write. -/
theorem fix_handler_file_write_iff (orig : String) :
    (fix_handler_file orig).wrote = true ↔ (fix_handler_file orig).result ≠ orig := by
  unfold fix_handler_file
  by_cases h : fix_all_transform orig ≠ orig
  · simp [h]
  · simp [h]

/-- C3 (counterexample): fix-cmd-logger.py writes unconditionally.  The empty
document is left textually unchanged by every cmd rule, yet `fix_cmd_file`
still writes it back, contradicting the write-iff-changed invariant. -/
theorem fix_cmd_file_writes_unchanged :
    (fix_cmd_file "").wrote = true ∧ (fix_cmd_file "").result = "" := by
  constructor
  · rfl
  · decide

theorem lookup_mem_snd {α β : Type} [BEq α] (l : List (α × β)) (k : α) (t : β)
    (h : List.lookup k l = some t) : t ∈ l.map Prod.snd := by
  induction l with
  | nil => simp [List.lookup] at h
  | cons p rest ih =>
    rcases p with ⟨a, b⟩
    by_cases hk : (k == a) = true
    · simp [List.lookup, hk] at h
      simp [h]
    · simp only [Bool.not_eq_true] at hk
      simp [List.lookup, hk] at h
      simp [ih h]

/-- C6: for every key present in `FIELD_TYPES` with a kind other than
`Error`, the per-pair constructor choice of `fix_logger_call` uses the table
kind, whatever the literal shape of the value — in particular a key tabled
as `Int` with a quoted-string value still yields a `zap.Int` field. -/
theorem fieldFor_table_wins (k v t : String)
    (hl : List.lookup k FIELD_TYPES = some t) (ht : t ≠ "Error") :
    fieldFor k v = "zap." ++ t ++ "(\"" ++ k ++ "\", " ++ v ++ ")" := by
  have hmem : t ∈ FIELD_TYPES.map Prod.snd := lookup_mem_snd _ _ _ hl
  have hall : ∀ x ∈ FIELD_TYPES.map Prod.snd,
      x = "String" ∨ x = "Int" ∨ x = "Int64" ∨ x = "Duration" ∨
      x = "Bool" ∨ x = "Error" := by decide
  have hcases := hall t hmem
  have hker : k ≠ "error" := by
    intro hk
    subst hk
    have he : List.lookup "error" FIELD_TYPES = some "Error" := by decide
    rw [he] at hl
    exact ht (Option.some_injective _ hl).symm
  have hft : fieldGet k = t := by
    unfold fieldGet
    rw [hl]
    rfl
  unfold fieldFor
  simp only [hft]
  rw [if_neg (fun hcon => hker hcon.2)]
  rcases hcases with h | h | h | h | h | h
  · subst h
    by_cases hsw : v.startsWith "\""
    · rw [if_neg (fun hcon => hcon.2 hsw)]
      rw [if_neg (by decide), if_neg (by decide), if_neg (by decide),
        if_neg (by decide)]
      rfl
    · rw [if_pos ⟨rfl, hsw⟩]
      rfl
  · subst h
    rw [if_neg (fun hcon => by exact absurd hcon.1 (by decide)),
      if_pos rfl]
    rfl
  · subst h
    rw [if_neg (fun hcon => by exact absurd hcon.1 (by decide)),
      if_neg (by decide), if_pos rfl]
    rfl
  · subst h
    rw [if_neg (fun hcon => by exact absurd hcon.1 (by decide)),
      if_neg (by decide), if_neg (by decide), if_pos rfl]
    rfl
  · subst h
    rw [if_neg (fun hcon => by exact absurd hcon.1 (by decide)),
      if_neg (by decide), if_neg (by decide), if_neg (by decide), if_pos rfl]
    rfl
  · exact absurd h ht

/-- Witness for C6: key `port` is tabled as `Int`; with the quoted-string
value `"8080"` the emitted field is still `zap.Int`. -/
theorem fieldFor_table_wins_witness :
    fieldFor "port" "\"8080\"" = "zap.Int(\"port\", \"8080\")" := by
  have h := fieldFor_table_wins "port" "\"8080\"" "Int" (by decide) (by decide)
  simpa using h

theorem litPre_sub {p s : List Char} (h : litPre p s = true) :
    ∀ c ∈ p, c ∈ s := by
  induction p generalizing s with
  | nil => simp
  | cons a as ih =>
    cases s with
    | nil => simp [litPre] at h
    | cons b bs =>
      simp only [litPre, Bool.and_eq_true, beq_iff_eq] at h
      intro c hc
      rcases List.mem_cons.mp hc with h1 | h1
      · subst h1; rw [h.1]; simp
      · exact List.mem_cons_of_mem _ (ih h.2 c h1)

theorem takeWhile_all {α : Type} {p : α → Bool} :
    ∀ {l : List α}, (∀ c ∈ l, p c = true) → l.takeWhile p = l := by
  intro l
  induction l with
  | nil => simp
  | cons a as ih =>
    intro h
    rw [List.takeWhile_cons, if_pos (h a (by simp))]
    rw [ih (fun c hc => h c (by simp [hc]))]

theorem takeWhile_append_all {α : Type} {p : α → Bool} {l r : List α}
    (h : ∀ c ∈ l, p c = true) :
    (l ++ r).takeWhile p = l ++ r.takeWhile p := by
  induction l with
  | nil => simp
  | cons a as ih =>
    rw [List.cons_append, List.takeWhile_cons, if_pos (h a (by simp))]
    rw [ih (fun c hc => h c (by simp [hc]))]
    simp

theorem isPyWord_not_space {c : Char} (h : isPyWord c = true) :
    isPySpace c = false := by
  by_contra hs
  simp only [Bool.not_eq_false] at hs
  simp only [isPySpace, Bool.or_eq_true, beq_iff_eq] at hs
  rcases hs with ((((h1 | h1) | h1) | h1) | h1) | h1 <;>
    (subst h1; exact absurd h (by decide))

theorem alpha_not_sep {c : Char} (h : c.isAlpha = true) : isSep c = false := by
  by_contra hs
  simp only [Bool.not_eq_false] at hs
  simp only [isSep, Bool.or_eq_true, beq_iff_eq] at hs
  rcases hs with ((h1 | h1) | h1) | h1 <;>
    (subst h1; exact absurd h (by decide))

theorem alpha_ne_quote {c : Char} (h : c.isAlpha = true) : ¬ c = '"' := by
  intro h1
  subst h1
  exact absurd h (by decide)

theorem alpha_ne_comma {c : Char} (h : c.isAlpha = true) : ¬ c = ',' := by
  intro h1
  subst h1
  exact absurd h (by decide)

theorem errMatch_no_comma {s : List Char} (h : ',' ∈ s → False) :
    errMatch s = none := by
  have hp : litPre "\"error\",".toList s = false := by
    by_contra hx
    simp only [Bool.not_eq_false] at hx
    exact h (litPre_sub hx ',' (by decide))
  unfold errMatch
  rw [hp]
  simp

theorem errMatch_not_quote {c : Char} {r : List Char} (h : ¬ c = '"') :
    errMatch (c :: r) = none := by
  have hb : ('"' == c) = false := by
    simp only [beq_eq_false_iff_ne, ne_eq]
    exact fun he => h he.symm
  have hl : litPre "\"error\",".toList (c :: r) = false := by
    show litPre ('"' :: "error\",".toList) (c :: r) = false
    simp [litPre, hb]
  unfold errMatch
  rw [hl]
  simp

theorem kvMatch_not_quote {c : Char} {r : List Char} (h : ¬ c = '"') :
    kvMatch (c :: r) = none := by
  unfold kvMatch
  rw [if_neg]
  simp only [List.head?_cons, Option.some_inj]
  exact h

theorem kvMatch_quoted_bare (b : List Char) (hne : b ≠ [])
    (hq : ∀ c ∈ b, (c != '"') = true) :
    kvMatch ('"' :: (b ++ ['"'])) = none := by
  unfold kvMatch
  rw [if_pos (by simp)]
  simp only [List.tail_cons]
  have hk : (b ++ ['"']).takeWhile (fun c => c != '"') = b := by
    rw [takeWhile_append_all hq]
    simp [List.takeWhile_cons]
  rw [hk]
  rw [if_neg (by simpa using hne)]
  have hd : (b ++ ['"']).drop b.length = ['"'] := List.drop_left b ['"']
  rw [hd]
  rw [if_neg]
  intro hcon
  simp at hcon

theorem dropWhile_not_sep {c : Char} {r : List Char} (h : isSep c = false) :
    (c :: r).dropWhile isSep = c :: r := by
  rw [List.dropWhile_cons, h]
  simp

/-- A run of alphabetic characters followed by a lone closing quote yields no
further pairs: the loop advances one character at a time over it and stops at
the end of input. -/
theorem parseLoop_alpha_tail :
    ∀ (l : List Char) (acc : List String), (∀ c ∈ l, c.isAlpha = true) →
      parseLoop (l ++ ['"']) acc = acc.reverse := by
  intro l
  induction l with
  | nil =>
    intro acc _
    rw [List.nil_append, parseLoop_step]
    have h1 : (['"'] : List Char).dropWhile isSep = ['"'] := rfl
    rw [h1]
    rw [if_neg (by simp)]
    have h2 : errMatch ['"'] = none := rfl
    have h3 : kvMatch ['"'] = none := rfl
    rw [h2, h3]
    rfl
  | cons c cs ih =>
    intro acc hall
    have hc : c.isAlpha = true := hall c (by simp)
    rw [List.cons_append, parseLoop_step]
    rw [dropWhile_not_sep (alpha_not_sep hc)]
    rw [if_neg (by simp)]
    rw [errMatch_not_quote (alpha_ne_quote hc)]
    rw [kvMatch_not_quote (alpha_ne_quote hc)]
    simp only [List.tail_cons]
    exact ih acc (fun x hx => hall x (by simp [hx]))

/-- C5 (amended): for key `"error"` the fast path fires whenever the value
expression begins with a word character: the maximal leading run of word
characters is wrapped in a `zap.Error` field.  (For a value that is a bare
identifier this is the whole value.) -/
theorem parseLoop_error_word_value (v : List Char)
    (hne : v ≠ []) (hw : ∀ c ∈ v, isPyWord c = true) :
    parseLoop ('"' :: 'e' :: 'r' :: 'r' :: 'o' :: 'r' :: '"' :: ',' :: ' ' :: v) []
      = ["zap.Error(" ++ v.asString ++ ")"] := by
  cases v with
  | nil => exact absurd rfl hne
  | cons c cs =>
    have hcw : isPyWord c = true := hw c (by simp)
    have hcsw : ∀ x ∈ cs, isPyWord x = true := fun x hx => hw x (by simp [hx])
    rw [parseLoop_step]
    have hdw : (('"' :: 'e' :: 'r' :: 'r' :: 'o' :: 'r' :: '"' :: ',' :: ' ' :: c :: cs).dropWhile isSep)
        = '"' :: 'e' :: 'r' :: 'r' :: 'o' :: 'r' :: '"' :: ',' :: ' ' :: c :: cs := rfl
    rw [hdw, if_neg (by simp)]
    have he : errMatch ('"' :: 'e' :: 'r' :: 'r' :: 'o' :: 'r' :: '"' :: ',' :: ' ' :: c :: cs)
        = some ((c :: cs).asString, []) := by
      unfold errMatch
      rw [if_pos (show litPre "\"error\",".toList
        ('"' :: 'e' :: 'r' :: 'r' :: 'o' :: 'r' :: '"' :: ',' :: ' ' :: c :: cs) = true from rfl)]
      have hd8 : ('"' :: 'e' :: 'r' :: 'r' :: 'o' :: 'r' :: '"' :: ',' :: ' ' :: c :: cs).drop 8
          = ' ' :: c :: cs := rfl
      rw [hd8]
      have h5 : (' ' :: c :: cs).dropWhile isPySpace = c :: cs := by
        rw [List.dropWhile_cons, if_pos (show isPySpace ' ' = true from rfl)]
        rw [List.dropWhile_cons, isPyWord_not_space hcw]
        simp
      rw [h5]
      have h6 : (c :: cs).takeWhile isPyWord = c :: cs :=
        takeWhile_all (fun x hx => hw x hx)
      simp only []
      rw [h6, if_neg (by simp), List.drop_length]
    rw [he]
    rfl

/-- Witness for C5 (amended): the pair `"error", err` yields exactly one
`zap.Error(err)` field. -/
theorem parseLoop_error_word_value_witness :
    parseLoop ('"' :: 'e' :: 'r' :: 'r' :: 'o' :: 'r' :: '"' :: ',' :: ' ' :: ['e', 'r', 'r']) []
      = ["zap.Error(err)"] := by
  have h := parseLoop_error_word_value ['e', 'r', 'r'] (by decide) (by decide)
  simpa using h

/-- C5 (counterexample): for key `"error"` with value `&err` — a value shape
not starting with a word character — the normalizer emits a `zap.String`
field, not a `zap.Error` field: the fast path fails, the pair falls to the
generic branch, and the `Error` table kind has no constructor case, so the
final `else` produces `String`. -/
theorem error_key_not_error_field_counterexample :
    fix_logger_call "logger.Error" "\"failed\"" "\"error\", &err"
      = "logger.Error(\"failed\", zap.String(\"error\", &err))" ∧
    occurs "zap.Error".toList
      (fix_logger_call "logger.Error" "\"failed\"" "\"error\", &err").toList = false := by
  constructor
  · decide
  · decide

/-- C7 (amended): an unparsable trailing segment is dropped from the rebuilt
call, not preserved: after the parsable pair `"port", 8080` a dangling quoted
key (no following comma/value) is skipped character by character and the
rebuilt argument list contains only the converted pair. -/
theorem parseLoop_dangling_key_dropped (b : List Char)
    (hne : b ≠ []) (hb : ∀ c ∈ b, c.isAlpha = true) :
    parseLoop ('"' :: 'p' :: 'o' :: 'r' :: 't' :: '"' :: ',' :: ' ' ::
        '8' :: '0' :: '8' :: '0' :: ',' :: ' ' :: '"' :: (b ++ ['"'])) []
      = ["zap.Int(\"port\", 8080)"] := by
  rw [parseLoop_step]
  have hdw : (('"' :: 'p' :: 'o' :: 'r' :: 't' :: '"' :: ',' :: ' ' ::
      '8' :: '0' :: '8' :: '0' :: ',' :: ' ' :: '"' :: (b ++ ['"'])).dropWhile isSep)
      = '"' :: 'p' :: 'o' :: 'r' :: 't' :: '"' :: ',' :: ' ' ::
        '8' :: '0' :: '8' :: '0' :: ',' :: ' ' :: '"' :: (b ++ ['"']) := rfl
  rw [hdw, if_neg (by simp)]
  have he : errMatch ('"' :: 'p' :: 'o' :: 'r' :: 't' :: '"' :: ',' :: ' ' ::
      '8' :: '0' :: '8' :: '0' :: ',' :: ' ' :: '"' :: (b ++ ['"'])) = none := rfl
  rw [he]
  have hk : kvMatch ('"' :: 'p' :: 'o' :: 'r' :: 't' :: '"' :: ',' :: ' ' ::
      '8' :: '0' :: '8' :: '0' :: ',' :: ' ' :: '"' :: (b ++ ['"']))
      = some ("port", "8080", ',' :: ' ' :: '"' :: (b ++ ['"'])) := rfl
  rw [hk]
  show parseLoop (',' :: ' ' :: '"' :: (b ++ ['"'])) [fieldFor "port" (pyStrip "8080")]
      = ["zap.Int(\"port\", 8080)"]
  rw [parseLoop_step]
  have hdw2 : ((',' :: ' ' :: '"' :: (b ++ ['"'])).dropWhile isSep)
      = '"' :: (b ++ ['"']) := rfl
  rw [hdw2, if_neg (by simp)]
  have he2 : errMatch ('"' :: (b ++ ['"'])) = none := by
    apply errMatch_no_comma
    intro hmem
    rcases List.mem_cons.mp hmem with h1 | h1
    · exact absurd h1 (by decide)
    · rcases List.mem_append.mp h1 with h2 | h2
      · exact alpha_ne_comma (hb ',' h2) rfl
      · exact absurd (List.mem_singleton.mp h2) (by decide)
  rw [he2]
  have hk2 : kvMatch ('"' :: (b ++ ['"'])) = none := by
    apply kvMatch_quoted_bare b hne
    intro c hc
    have := alpha_ne_quote (hb c hc)
    simpa using this
  rw [hk2]
  show parseLoop (b ++ ['"']) [fieldFor "port" (pyStrip "8080")]
      = ["zap.Int(\"port\", 8080)"]
  rw [parseLoop_alpha_tail b _ hb]
  rfl

/-- Witness for C7 (amended): the concrete dangling key `"b"`. -/
theorem parseLoop_dangling_key_dropped_witness :
    parseLoop ('"' :: 'p' :: 'o' :: 'r' :: 't' :: '"' :: ',' :: ' ' ::
        '8' :: '0' :: '8' :: '0' :: ',' :: ' ' :: '"' :: (['b'] ++ ['"'])) []
      = ["zap.Int(\"port\", 8080)"] := by
  have h := parseLoop_dangling_key_dropped ['b'] (by decide) (by decide)
  simpa using h

/-- C7 (counterexample): the dangling key `"b"` is removed from the rewritten
call text — it appears nowhere in the output — contradicting the claim that
the unparsable segment is left untouched. -/
theorem dangling_key_not_preserved_counterexample :
    fix_logger_call "logger.Info" "\"m\"" "\"port\", 8080, \"b\""
      = "logger.Info(\"m\", zap.Int(\"port\", 8080))" ∧
    occurs "\"b\"".toList
      (fix_logger_call "logger.Info" "\"m\"" "\"port\", 8080, \"b\"").toList = false := by
  constructor
  · decide
  · decide

/-- C8 (amended): on a missing worklist entry the cmd-logger driver reports
`Not found` and continues with the remaining entries, but the all-handlers
driver catches the `open` failure and exits with status 1, processing no
further entry. -/
theorem missing_file_behavior (fs : String → FileState) (p : String)
    (ps : List String) (h : fs p = FileState.absent) :
    cmdRun fs (p :: ps) = (Ev.notFound p :: (cmdRun fs ps).1, (cmdRun fs ps).2) ∧
    allHandlersRun fs (p :: ps) = ([Ev.errorExit p], 1) := by
  constructor
  · simp [cmdRun, h]
  · simp [allHandlersRun, h]

/-- Witness for C8 (amended). -/
theorem missing_file_behavior_witness :
    cmdRun exFS1 ["a", "b"]
        = (Ev.notFound "a" :: (cmdRun exFS1 ["b"]).1, (cmdRun exFS1 ["b"]).2) ∧
    allHandlersRun exFS1 ["a", "b"] = ([Ev.errorExit "a"], 1) :=
  missing_file_behavior exFS1 "a" ["b"] (by decide)

/-- C8 (counterexample): in the all-handlers driver a missing first entry
aborts the whole run with exit status 1 — the existing second entry is never
processed — contradicting the claim that a missing file never aborts the
run. -/
theorem missing_file_aborts_counterexample :
    allHandlersRun exFS1 ["a", "b"] = ([Ev.errorExit "a"], 1) ∧
    (allHandlersRun exFS1 ["a", "b"]).2 ≠ 0 := by
  constructor
  · decide
  · decide

/-- C9 (amended): on an I/O failure for an existing file the all-handlers
driver aborts with exit status 1, but the zap-comprehensive driver catches
the exception inside `fix_file`, reports it, continues with the remaining
entries and ends with status 0. -/
theorem io_failure_behavior (fs : String → FileState) (p : String)
    (ps : List String) (h : fs p = FileState.unreadable) :
    allHandlersRun fs (p :: ps) = ([Ev.errorExit p], 1) ∧
    zapRun fs (p :: ps) = (Ev.procError p :: (zapRun fs ps).1, (zapRun fs ps).2) := by
  constructor
  · simp [allHandlersRun, h]
  · simp [zapRun, h]

/-- Witness for C9 (amended). -/
theorem io_failure_behavior_witness :
    allHandlersRun exFS2 ["a", "b"] = ([Ev.errorExit "a"], 1) ∧
    zapRun exFS2 ["a", "b"] = (Ev.procError "a" :: (zapRun exFS2 ["b"]).1, (zapRun exFS2 ["b"]).2) :=
  io_failure_behavior exFS2 "a" ["b"] (by decide)

/-- C9 (counterexample): the zap-comprehensive driver does not abort on an
unreadable entry: it reports the failure, still processes the next entry, and
the run ends with exit status 0 — contradicting the claim that an I/O failure
aborts the run immediately with non-zero status. -/
theorem io_error_run_continues_counterexample :
    zapRun exFS2 ["a", "b"] = ([Ev.procError "a", Ev.noChange "b"], 0) := by
  decide

/-- C10 (amended): if the zap import string is present anywhere in the file,
no import is added; otherwise the import line is inserted after every
`import (` line (each occurrence, not only the first). -/
theorem cmd_import_insertion :
    (∀ c, pyContains c "\"go.uber.org/zap\"" = true → cmdInsertImport c = c) ∧
    cmdInsertImport "import (\nimport (\nx"
      = "import (\n\t\"go.uber.org/zap\"\nimport (\n\t\"go.uber.org/zap\"\nx" := by
  constructor
  · intro c h
    simp [cmdInsertImport, h]
  · decide

/-- Witness for C10 (amended): a file already mentioning the zap import is
left unchanged. -/
theorem cmd_import_insertion_witness :
    cmdInsertImport "x \"go.uber.org/zap\" y" = "x \"go.uber.org/zap\" y" :=
  cmd_import_insertion.1 "x \"go.uber.org/zap\" y" (by decide)

/-- C10 (counterexample): the empty document contains no zap import string,
yet the insertion step adds nothing (there is no `import (` line to anchor
it), so no zap import line is inserted — contradicting the claim that every
file lacking the substring gets one. -/
theorem cmd_import_no_anchor_counterexample :
    cmdInsertImport "" = "" ∧
    pyContains "" "\"go.uber.org/zap\"" = false ∧
    pyContains (cmdInsertImport "") "go.uber.org/zap" = false := by
  refine ⟨by decide, by decide, by decide⟩
